import Mathlib

/-!
Verification of the MAPPO learner of the MARL_CAV_FLOW repository.

The numeric computations of `MARL/MAPPO.py` are embedded shallowly over `ℚ`
(Python floats are modelled as exact rationals), tensors over the batch and
agent dimensions are modelled as lists, and the neural networks, optimizer
steps and random draws are abstracted as explicit function parameters, since
their internals live outside the statements under scrutiny.
-/

namespace MAPPO

/-- The backward discounting loop of `MAPPO._discount_reward`
(MAPPO.py lines 359-365): `running_add` starts at `final_value` and is
updated as `running_add = running_add * reward_gamma + rewards[t]` while `t`
runs from the last index down to 0; the functional rendering computes the
tail first, so the previous `running_add` is the head of the tail result
(or `v` when the tail is empty). -/
def discountReward (γ v : ℚ) : List ℚ → List ℚ
  | [] => []
  | r :: rs =>
    let rest := discountReward γ v rs
    (rest.headD v * γ + r) :: rest

/-- The parameter interpolation of `MAPPO._soft_update_target`
(MAPPO.py lines 368-371): each target parameter is overwritten with
`(1 - target_tau) * t + target_tau * s`, walking the zipped parameter
lists of the target and source networks. -/
def softUpdateTarget (τ : ℚ) (target source : List ℚ) : List ℚ :=
  (target.zip source).map (fun p => (1 - τ) * p.1 + τ * p.2)

theorem discountReward_length (γ v : ℚ) (r : List ℚ) :
    (discountReward γ v r).length = r.length := by
  induction r with
  | nil => rfl
  | cons a rs ih => simp [discountReward, ih]

/-- Claim C1: the result `R` of `MAPPO._discount_reward(r, v)` satisfies the
backward recurrence `R t = r t + γ * R (t+1)` for every `t < n - 1` and
`R (n-1) = r (n-1) + γ * v` (expressed uniformly through the conditional on
`t + 1 < n`), and on rewards `[1, 1, 1]` with `γ = 1/2` and bootstrap `0`
it returns `[7/4, 3/2, 1]`. -/
theorem discount_reward_recurrence :
    (∀ (γ v : ℚ) (r : List ℚ) (i : ℕ), i < r.length →
      (discountReward γ v r).getD i 0 =
        r.getD i 0 +
          γ * (if i + 1 < r.length then (discountReward γ v r).getD (i + 1) 0 else v)) ∧
    discountReward (1/2) 0 [1, 1, 1] = [7/4, 3/2, 1] := by
  constructor
  · intro γ v r
    induction r with
    | nil => intro i h; simp at h
    | cons a rs ih =>
      intro i h
      cases i with
      | zero =>
        cases rs with
        | nil =>
          simp [discountReward]
          ring
        | cons b rs' =>
          have hlt : 0 + 1 < (a :: b :: rs').length := by simp
          rw [if_pos hlt]
          simp [discountReward]
          ring
      | succ j =>
        have hj : j < rs.length := by simpa using h
        have key := ih j hj
        simp only [discountReward, List.getD_cons_succ, List.length_cons]
        rw [key]
        have hiff : (j + 1 + 1 < rs.length + 1) = (j + 1 < rs.length) := by
          simp [Nat.add_lt_add_iff_right]
        simp only [hiff]
  · norm_num [discountReward]

theorem discount_reward_recurrence_witness :
    (0 < ([1, 1, 1] : List ℚ).length) ∧
    (discountReward (1/2) 0 [1, 1, 1]).getD 0 0 =
      ([1, 1, 1] : List ℚ).getD 0 0 +
        (1/2) * (if 0 + 1 < ([1, 1, 1] : List ℚ).length then
          (discountReward (1/2) 0 [1, 1, 1]).getD (0 + 1) 0 else 0) :=
  ⟨by decide, discount_reward_recurrence.1 (1/2) 0 [1, 1, 1] 0 (by decide)⟩

/-- Claim C3: one call of `MAPPO._soft_update_target` sets each target
parameter to `(1 - τ) * t + τ * s`; with `τ = 0` the target list is
unchanged, with `τ = 1` it becomes the source list, and the concrete
scenario `live = 1, target = 0, τ = 1/4` yields `1/4` after one update and
`7/16` after a second update with live still `1`. -/
theorem soft_update_convex :
    (∀ (τ : ℚ) (t s : List ℚ) (i : ℕ), i < t.length → i < s.length →
      (softUpdateTarget τ t s).getD i 0 = (1 - τ) * t.getD i 0 + τ * s.getD i 0) ∧
    (∀ (t s : List ℚ), t.length = s.length →
      softUpdateTarget 0 t s = t ∧ softUpdateTarget 1 t s = s) ∧
    softUpdateTarget (1/4) [0] [1] = [1/4] ∧
    softUpdateTarget (1/4) [1/4] [1] = [7/16] := by
  refine ⟨?_, ?_, by norm_num [softUpdateTarget], by norm_num [softUpdateTarget]⟩
  · intro τ t
    induction t with
    | nil => intro s i h _; simp at h
    | cons a ts ih =>
      intro s i ht hs
      cases s with
      | nil => simp at hs
      | cons b ss =>
        cases i with
        | zero => simp [softUpdateTarget]
        | succ j =>
          have h1 : j < ts.length := by simpa using ht
          have h2 : j < ss.length := by simpa using hs
          simpa [softUpdateTarget] using ih ss j h1 h2
  · intro t s hlen
    constructor
    · unfold softUpdateTarget
      rw [show (fun p : ℚ × ℚ => (1 - (0:ℚ)) * p.1 + 0 * p.2) = Prod.fst from
        funext (fun p => by ring)]
      exact List.map_fst_zip t s (le_of_eq hlen)
    · unfold softUpdateTarget
      rw [show (fun p : ℚ × ℚ => (1 - (1:ℚ)) * p.1 + 1 * p.2) = Prod.snd from
        funext (fun p => by ring)]
      exact List.map_snd_zip t s (le_of_eq hlen.symm)

theorem soft_update_convex_witness :
    (0 < ([2] : List ℚ).length ∧ 0 < ([4] : List ℚ).length) ∧
    (softUpdateTarget (1/2) [2] [4]).getD 0 0 =
      (1 - 1/2) * ([2] : List ℚ).getD 0 0 + (1/2) * ([4] : List ℚ).getD 0 0 :=
  ⟨⟨by decide, by decide⟩, soft_update_convex.1 (1/2) [2] [4] 0 (by decide) (by decide)⟩

/-- The elementwise product-sum `th.sum(x * y, 1)` used on a single batch row
to turn the actor output into a log-probability proxy for the taken action. -/
def dot (xs ys : List ℚ) : ℚ := ((xs.zip ys).map (fun p => p.1 * p.2)).sum

/-- The clamping `th.clamp(x, lo, hi)`. -/
def clampQ (x lo hi : ℚ) : ℚ := min (max x lo) hi

/-- The batch mean `th.mean`. -/
def mean (xs : List ℚ) : ℚ := xs.sum / xs.length

/-- The surrogate tensor built by `MAPPO.train` for one agent slice
(MAPPO.py lines 180-191), with the tensor shapes of the source: `values`,
and hence `advantages = rewards_var[:, agent_id, :] - values`, keeps the
trailing dimension of the one-output critic head, shape (B, 1), while the
log-prob proxies and `ratio` are reduced over the action dimension by
`th.sum(..., 1)`, shape (B,).  The products `ratio * advantages` and
`th.clamp(ratio, ...) * advantages` therefore broadcast (B,) against (B, 1)
into a (B, B) outer product whose entry (i, j) pairs advantage i with
ratio j; rows of the result are indexed by the advantage, columns by the
ratio.  The exponential `th.exp` is kept abstract as `e`. -/
def surrMatrix (e : ℚ → ℚ) (clipParam : ℚ) (actor actorTarget : List ℚ → List ℚ)
    (criticTarget : List ℚ → List ℚ → ℚ)
    (states actions : List (List ℚ)) (rewards : List ℚ) : List (List ℚ) :=
  let values := (states.zip actions).map (fun p => criticTarget p.1 p.2)
  let advantages := (rewards.zip values).map (fun p => p.1 - p.2)
  let liveLogProbs := (states.zip actions).map (fun p => dot (actor p.1) p.2)
  let oldLogProbs := (states.zip actions).map (fun p => dot (actorTarget p.1) p.2)
  let ratios := (liveLogProbs.zip oldLogProbs).map (fun p => e (p.1 - p.2))
  let surr1 := advantages.map (fun a => ratios.map (fun rt => rt * a))
  let surr2 := advantages.map (fun a =>
    ratios.map (fun rt => clampQ rt (1 - clipParam) (1 + clipParam) * a))
  (surr1.zip surr2).map (fun rows => (rows.1.zip rows.2).map (fun p => min p.1 p.2))

/-- The actor loss `-th.mean(th.min(surr1, surr2))` of `MAPPO.train`
(MAPPO.py line 191): the mean runs over all B * B entries of the broadcast
surrogate tensor. -/
def actorLoss (e : ℚ → ℚ) (clipParam : ℚ) (actor actorTarget : List ℚ → List ℚ)
    (criticTarget : List ℚ → List ℚ → ℚ)
    (states actions : List (List ℚ)) (rewards : List ℚ) : ℚ :=
  -(mean (surrMatrix e clipParam actor actorTarget criticTarget states actions rewards).flatten)

/-- The actor loss as claim C2 words it, for comparison with `actorLoss`:
minus the mean, over the B sampled triples, of
`min(ratio * advantage, clip(ratio, 1-ε, 1+ε) * advantage)` with
`ratio = exp(live_log_prob - target_log_prob)` and
`advantage = discounted reward - Critic-Target value`, each sample's ratio
paired with that same sample's advantage. -/
def actorLossSpec (e : ℚ → ℚ) (ε : ℚ) (actor actorTarget : List ℚ → List ℚ)
    (criticTarget : List ℚ → List ℚ → ℚ)
    (states actions : List (List ℚ)) (rewards : List ℚ) : ℚ :=
  -(mean ((states.zip (actions.zip rewards)).map (fun p =>
    let adv := p.2.2 - criticTarget p.1 p.2.1
    let ratio_ := e (dot (actor p.1) p.2.1 - dot (actorTarget p.1) p.2.1)
    min (ratio_ * adv) (clampQ ratio_ (1 - ε) (1 + ε) * adv))))

/-- The actor loss with the broadcast written out pointwise, for comparison
with `actorLoss`: minus the mean over all B * B pairs of a sampled advantage
(outer index, from `q`) and a sampled importance ratio (inner index, from
`p`) of `min(ratio_j * advantage_i, clip(ratio_j, 1-ε, 1+ε) * advantage_i)`. -/
def actorLossOuterSpec (e : ℚ → ℚ) (ε : ℚ) (actor actorTarget : List ℚ → List ℚ)
    (criticTarget : List ℚ → List ℚ → ℚ)
    (states actions : List (List ℚ)) (rewards : List ℚ) : ℚ :=
  -(mean (((rewards.zip (states.zip actions)).map (fun q =>
    (states.zip actions).map (fun p =>
      min (e (dot (actor p.1) p.2 - dot (actorTarget p.1) p.2) *
          (q.1 - criticTarget q.2.1 q.2.2))
        (clampQ (e (dot (actor p.1) p.2 - dot (actorTarget p.1) p.2)) (1 - ε) (1 + ε) *
          (q.1 - criticTarget q.2.1 q.2.2))))).flatten))

theorem surrMatrix_eq (e : ℚ → ℚ) (ε : ℚ) (actor actorTarget : List ℚ → List ℚ)
    (criticTarget : List ℚ → List ℚ → ℚ)
    (states actions : List (List ℚ)) (rewards : List ℚ) :
    surrMatrix e ε actor actorTarget criticTarget states actions rewards =
      (rewards.zip (states.zip actions)).map (fun q =>
        (states.zip actions).map (fun p =>
          min (e (dot (actor p.1) p.2 - dot (actorTarget p.1) p.2) *
              (q.1 - criticTarget q.2.1 q.2.2))
            (clampQ (e (dot (actor p.1) p.2 - dot (actorTarget p.1) p.2)) (1 - ε) (1 + ε) *
              (q.1 - criticTarget q.2.1 q.2.2)))) := by
  unfold surrMatrix
  simp only [List.zip_map']
  simp only [List.zip_map_right]
  simp only [List.map_map]
  refine List.map_congr_left (fun q _ => ?_)
  simp only [Function.comp_apply, Prod.map_fst, Prod.map_snd, id_eq]
  simp only [List.zip_map']
  simp only [List.map_map]
  rfl

/-- Claim C2, counterexample: on the two-sample batch with states
`[[1], [2]]`, actions `[[1], [1]]`, discounted rewards `[1, -1]`, the
identity actor, the zero target actor, the zero Critic-Target and ε = 1/5
(ratios `[1, 2]`, advantages `[1, -1]`), the actor loss computed by
`MAPPO.train` is `1/5` (the mean runs over the four broadcast pairs), while
the per-sample formula stated by the claim gives `1/2`. -/
theorem actor_loss_claim_counterexample :
    actorLoss (fun x => x) (1/5) (fun s => s) (fun _ => [0]) (fun _ _ => 0)
        [[1], [2]] [[1], [1]] [1, -1] ≠
      actorLossSpec (fun x => x) (1/5) (fun s => s) (fun _ => [0]) (fun _ _ => 0)
        [[1], [2]] [[1], [1]] [1, -1] := by
  norm_num [actorLoss, actorLossSpec, surrMatrix, mean, dot, clampQ, min_def, max_def]

/-- Claim C2, amended: in every per-agent update inside `MAPPO.train`,
because `ratio` has shape (B,) while the advantage column has shape (B, 1),
`ratio * advantage` and `clamp(ratio, 1-ε, 1+ε) * advantage` broadcast to a
B × B outer product, and the actor loss equals minus the mean over all B * B
pairs (i, j) of `min(ratio_j * advantage_i, clamp(ratio_j, 1-ε, 1+ε) *
advantage_i)`, with `ratio = exp(live_log_prob - detached target log-prob
proxy)` and `advantage = sampled discounted reward - detached Critic-Target
value`; on a batch of size one this coincides with the per-sample formula
the claim states. -/
theorem actor_loss_broadcast (e : ℚ → ℚ) (ε : ℚ) (actor actorTarget : List ℚ → List ℚ)
    (criticTarget : List ℚ → List ℚ → ℚ)
    (states actions : List (List ℚ)) (rewards : List ℚ) :
    actorLoss e ε actor actorTarget criticTarget states actions rewards =
      actorLossOuterSpec e ε actor actorTarget criticTarget states actions rewards ∧
    (∀ (s a : List ℚ) (r : ℚ),
      actorLoss e ε actor actorTarget criticTarget [s] [a] [r] =
        actorLossSpec e ε actor actorTarget criticTarget [s] [a] [r]) := by
  constructor
  · unfold actorLoss actorLossOuterSpec
    rw [surrMatrix_eq]
  · intro s a r
    rfl

/-- The reward normalization of `MAPPO.interact` (MAPPO.py lines 158-159):
`if self.reward_scale > 0: rewards = np.array(rewards) / self.reward_scale`.
`rewards` is row-major: one row per time step, one entry per agent. -/
def scaleRewards (scale : ℚ) (rewards : List (List ℚ)) : List (List ℚ) :=
  if 0 < scale then rewards.map (fun row => row.map (fun x => x / scale)) else rewards

/-- The per-agent column `rewards[:, agent_id]` of the row-major reward
array. -/
def agentColumn (rewards : List (List ℚ)) (i : ℕ) : List ℚ :=
  rewards.map (fun row => row.getD i 0)

/-- The reward post-processing of `MAPPO.interact` (MAPPO.py lines 158-162):
scale the collected rewards, then discount each agent's column backward,
seeded with that agent's bootstrap value.  The result lists the per-agent
discounted columns written back by the loop. -/
def processedRewards (scale γ : ℚ) (finalValue : List ℚ) (nAgents : ℕ)
    (rewards : List (List ℚ)) : List (List ℚ) :=
  let scaled := scaleRewards scale rewards
  (List.range nAgents).map (fun i => discountReward γ (finalValue.getD i 0) (agentColumn scaled i))

/-- Claim C7: in `MAPPO.interact`, when `reward_scale > 0` every collected
reward entry is divided by `reward_scale`, when `reward_scale ≤ 0` the
rewards are left unscaled, and the scaling happens before the discounting
step: with `reward_scale = 20` the raw single-agent rewards `[20, 20]`
become `[1, 1]` and the discounting then runs on `[1, 1]`. -/
theorem reward_scale_division :
    (∀ (scale : ℚ) (rw : List (List ℚ)), 0 < scale →
      scaleRewards scale rw = rw.map (fun row => row.map (fun x => x / scale))) ∧
    (∀ (scale : ℚ) (rw : List (List ℚ)), ¬ 0 < scale → scaleRewards scale rw = rw) ∧
    scaleRewards 20 [[20], [20]] = [[1], [1]] ∧
    (∀ (γ : ℚ) (fv : List ℚ),
      processedRewards 20 γ fv 1 [[20], [20]] = [discountReward γ (fv.getD 0 0) [1, 1]]) := by
  refine ⟨?_, ?_, by norm_num [scaleRewards], ?_⟩
  · intro scale rw h
    simp [scaleRewards, h]
  · intro scale rw h
    simp [scaleRewards, h]
  · intro γ fv
    simp [processedRewards, scaleRewards, agentColumn, List.range_succ]

theorem reward_scale_division_witness :
    (0 < (20 : ℚ)) ∧
    scaleRewards 20 [[2]] = ([[2]] : List (List ℚ)).map (fun row => row.map (fun x => x / 20)) :=
  ⟨by norm_num, reward_scale_division.1 20 [[2]] (by norm_num)⟩

/-- The per-agent deterministic actor output of `MAPPO._continuous_action`
(MAPPO.py lines 216-229): the live actor evaluated on the agent's slice
`state_var[:, agent_id, :]` of the joint state. -/
def continuousAction (actor : List ℚ → List ℚ) (state : List (List ℚ))
    (nAgents : ℕ) : List (List ℚ) :=
  (List.range nAgents).map (fun i => actor (state.getD i []))

/-- The componentwise `pi + c * noise` used when perturbing an action
vector. -/
def addNoise (c : ℚ) (pi_ noise : List ℚ) : List ℚ :=
  (pi_.zip noise).map (fun p => p.1 + c * p.2)

/-- `MAPPO.action` (MAPPO.py lines 240-248): the deterministic per-agent
action of `_continuous_action` with mild Gaussian noise added,
`pi + 0.01 * np.random.randn(*pi.shape)`; the random draw for each agent is
passed in explicitly as `noise`. -/
def actionWithNoise (actor : List ℚ → List ℚ) (state : List (List ℚ))
    (nAgents : ℕ) (noise : ℕ → List ℚ) : List (List ℚ) :=
  (List.range nAgents).map (fun i => addNoise (1/100) (actor (state.getD i [])) (noise i))

/-- `MAPPO.value` (MAPPO.py lines 250-264): the value of each agent's
(state, action) slice, computed with the live critic `self.critic`. -/
def value (critic : List ℚ → List ℚ → ℚ) (state acts : List (List ℚ))
    (nAgents : ℕ) : List ℚ :=
  (List.range nAgents).map (fun i => critic (state.getD i []) (acts.getD i []))

/-- The bootstrap computation of `MAPPO.interact` (MAPPO.py lines 142-156):
when the rollout ended in a terminal state the bootstrap is `0` for every
agent, otherwise it is `self.value(final_state, self.action(final_state))`,
which uses the live critic and the noise-perturbed action. -/
def interactBootstrap (actor : List ℚ → List ℚ) (critic : List ℚ → List ℚ → ℚ)
    (episodeDone : Bool) (finalState : List (List ℚ)) (nAgents : ℕ)
    (noise : ℕ → List ℚ) : List ℚ :=
  if episodeDone then List.replicate nAgents 0
  else value critic finalState (actionWithNoise actor finalState nAgents noise) nAgents

/-- The bootstrap as claim C4 states it, for comparison with
`interactBootstrap`: the Critic-Target network evaluated at the final state
with the noise-free deterministic action at that state. -/
def claimedBootstrap (actor : List ℚ → List ℚ) (criticTarget : List ℚ → List ℚ → ℚ)
    (finalState : List (List ℚ)) (nAgents : ℕ) : List ℚ :=
  value criticTarget finalState (continuousAction actor finalState nAgents) nAgents

theorem getD_map_range {α : Type} (f : ℕ → α) (n i : ℕ) (d : α) (h : i < n) :
    ((List.range n).map f).getD i d = f i := by
  rw [List.getD_eq_getElem?_getD, List.getElem?_map, List.getElem?_range h]
  rfl

/-- Claim C4, counterexample: with a live critic that reads off the action,
a Critic-Target that is identically zero, the identity actor on
one-dimensional states, final state `[[1]]` and a unit noise draw, the
bootstrap computed by `MAPPO.interact` for a non-terminal rollout differs
from the value claimed (Critic-Target at the noise-free deterministic
action): the code yields `[101/100]`, the claim `[0]`. -/
theorem bootstrap_claim_counterexample :
    interactBootstrap (fun s => s) (fun _ a => a.getD 0 0) false [[1]] 1 (fun _ => [1]) ≠
      claimedBootstrap (fun s => s) (fun _ _ => 0) [[1]] 1 := by
  norm_num [interactBootstrap, claimedBootstrap, value, actionWithNoise,
    continuousAction, addNoise, List.range_succ]

/-- Claim C4, amended: whenever a rollout collected by `MAPPO.interact` does
not end in a terminal state, the bootstrap value for every agent is the live
Critic network (`self.critic`) evaluated at the final state together with the
deterministic action at that state perturbed by `0.01`-scaled noise
(`MAPPO.action`). -/
theorem bootstrap_live_critic_noisy (actor : List ℚ → List ℚ)
    (critic : List ℚ → List ℚ → ℚ) (state : List (List ℚ)) (nAgents : ℕ)
    (noise : ℕ → List ℚ) (i : ℕ) (h : i < nAgents) :
    (interactBootstrap actor critic false state nAgents noise).getD i 0 =
      critic (state.getD i []) (addNoise (1/100) (actor (state.getD i [])) (noise i)) := by
  unfold interactBootstrap value actionWithNoise
  simp only [Bool.false_eq_true, if_false]
  rw [getD_map_range _ _ _ _ h, getD_map_range _ _ _ _ h]

theorem bootstrap_live_critic_noisy_witness :
    (0 < 1) ∧
    (interactBootstrap (fun s => s) (fun _ a => a.getD 0 0) false [[1]] 1
        (fun _ => [1])).getD 0 0 = 101/100 :=
  ⟨by decide, by
    have h := bootstrap_live_critic_noisy (fun s => s) (fun _ a => a.getD 0 0)
      [[1]] 1 (fun _ => [1]) 0 (by decide)
    rw [h]
    norm_num [addNoise]⟩

/-- The configuration constants of `MAPPO.__init__` that `MAPPO.train`
reads: `target_update_steps`, `target_tau`, `episodes_before_train` and the
current agent count `n_agents`. -/
structure TrainConfig where
  targetUpdateSteps : ℕ
  targetTau : ℚ
  episodesBeforeTrain : ℕ
  nAgents : ℕ

/-- The learner parameter state: live actor and critic parameters (the only
parameters handed to the optimizers in MAPPO.py lines 81-86), the target
copies, and the completed-episode counter. -/
structure TrainState where
  actor : List ℚ
  critic : List ℚ
  actorTarget : List ℚ
  criticTarget : List ℚ
  nEpisodes : ℕ

/-- The target-network initialization of `MAPPO.__init__` (MAPPO.py lines
77-79): the targets are independent copies of the live parameters. -/
def mkState (actorParams criticParams : List ℚ) : TrainState :=
  ⟨actorParams, criticParams, actorParams, criticParams, 0⟩

/-- Sequential per-agent optimizer stepping: fold the per-agent update `f`
over the agent indices. -/
def foldAgents (f : ℕ → List ℚ → List ℚ) (n : ℕ) (p : List ℚ) : List ℚ :=
  (List.range n).foldl (fun x i => f i x) p

/-- The per-agent loop of `MAPPO.train` (MAPPO.py lines 177-208): for each
agent index, one gradient step on the live actor parameters and one on the
live critic parameters.  The loss gradients, norm clipping and optimizer
internals are abstracted into the step functions `f` and `g`; the loop never
writes the target parameters. -/
def trainLive (f g : ℕ → List ℚ → List ℚ) (n : ℕ) (a c : List ℚ) : List ℚ × List ℚ :=
  (List.range n).foldl (fun p i => (f i p.1, g i p.2)) (a, c)

/-- `MAPPO.train` as a transformation of the parameter state (MAPPO.py lines
168-213): the warm-up comparison `if self.n_episodes <= self.episodes_before_train: pass`
is a no-op, the per-agent loop steps the live networks, and the targets are
soft-updated exactly under `self.n_episodes % self.target_update_steps == 0
and self.n_episodes > 0`. -/
def trainStep (cfg : TrainConfig) (f g : ℕ → List ℚ → List ℚ) (s : TrainState) :
    TrainState :=
  let _warmup : Prop := s.nEpisodes ≤ cfg.episodesBeforeTrain
  let live := trainLive f g cfg.nAgents s.actor s.critic
  if s.nEpisodes % cfg.targetUpdateSteps = 0 ∧ 0 < s.nEpisodes then
    { actor := live.1, critic := live.2,
      actorTarget := softUpdateTarget cfg.targetTau s.actorTarget live.1,
      criticTarget := softUpdateTarget cfg.targetTau s.criticTarget live.2,
      nEpisodes := s.nEpisodes }
  else
    { actor := live.1, critic := live.2,
      actorTarget := s.actorTarget, criticTarget := s.criticTarget,
      nEpisodes := s.nEpisodes }

/-- The guard of the outer training loop in `run_mappo.train` (run_mappo.py
lines 145-148): `mappo.train()` runs only when
`mappo.n_episodes >= EPISODES_BEFORE_TRAIN`. -/
def outerLoopBody (cfg : TrainConfig) (f g : ℕ → List ℚ → List ℚ)
    (s : TrainState) : TrainState :=
  if cfg.episodesBeforeTrain ≤ s.nEpisodes then trainStep cfg f g s else s

theorem trainLive_eq (f g : ℕ → List ℚ → List ℚ) :
    ∀ (l : List ℕ) (a c : List ℚ),
      l.foldl (fun p i => (f i p.1, g i p.2)) (a, c) =
        (l.foldl (fun x i => f i x) a, l.foldl (fun x i => g i x) c) := by
  intro l
  induction l with
  | nil => intro a c; rfl
  | cons i l ih => intro a c; simpa using ih (f i a) (g i c)

/-- Claim C5: through construction and every `MAPPO.train` call, the target
parameters are mutated only by the soft-update routine and never by an
optimizer step: the optimizer steps rewrite exactly the live parameters
(actor and critic are the per-agent folds of the abstract optimizer steps),
each target after `train` is either its previous value or the soft update of
its previous value toward the stepped live value, and at construction the
targets are copies of the live parameters. -/
theorem target_params_only_soft_updated (cfg : TrainConfig)
    (f g : ℕ → List ℚ → List ℚ) (s : TrainState) :
    ((trainStep cfg f g s).actorTarget = s.actorTarget ∨
      (trainStep cfg f g s).actorTarget =
        softUpdateTarget cfg.targetTau s.actorTarget ((trainStep cfg f g s).actor)) ∧
    ((trainStep cfg f g s).criticTarget = s.criticTarget ∨
      (trainStep cfg f g s).criticTarget =
        softUpdateTarget cfg.targetTau s.criticTarget ((trainStep cfg f g s).critic)) ∧
    (trainStep cfg f g s).actor = foldAgents f cfg.nAgents s.actor ∧
    (trainStep cfg f g s).critic = foldAgents g cfg.nAgents s.critic ∧
    (∀ a c : List ℚ,
      (mkState a c).actorTarget = (mkState a c).actor ∧
      (mkState a c).criticTarget = (mkState a c).critic) := by
  have hlive : trainLive f g cfg.nAgents s.actor s.critic =
      (foldAgents f cfg.nAgents s.actor, foldAgents g cfg.nAgents s.critic) :=
    trainLive_eq f g (List.range cfg.nAgents) s.actor s.critic
  unfold trainStep
  by_cases h : s.nEpisodes % cfg.targetUpdateSteps = 0 ∧ 0 < s.nEpisodes
  · simp [h, hlive, mkState]
  · simp [h, hlive, mkState]

/-- Claim C6, counterexample: with `target_update_steps = 5`, `τ = 1`,
zero agents identity optimizer steps, live parameters `[1]`, targets `[0]`
and episode counter `0`, the modulus condition `0 % 5 == 0` holds, yet
`MAPPO.train` leaves the target at `[0]` instead of the soft-updated value
`[1]`, because the code additionally requires `n_episodes > 0`. -/
theorem target_update_condition_counterexample :
    (0 % 5 = 0) ∧
    (trainStep ⟨5, 1, 100, 0⟩ (fun _ p => p) (fun _ p => p)
        ⟨[1], [1], [0], [0], 0⟩).actorTarget ≠
      softUpdateTarget 1 [0]
        ((trainStep ⟨5, 1, 100, 0⟩ (fun _ p => p) (fun _ p => p)
          ⟨[1], [1], [0], [0], 0⟩).actor) := by
  constructor
  · rfl
  · norm_num [trainStep, trainLive, softUpdateTarget]

/-- Claim C6, amended: in every `MAPPO.train` call, both targets are
soft-updated with factor τ toward the stepped live parameters exactly when
`n_episodes % target_update_steps == 0` and `n_episodes > 0` (an
episode-count check, not a per-train-call check); in all other calls the
target parameters are left unchanged. -/
theorem target_update_condition (cfg : TrainConfig)
    (f g : ℕ → List ℚ → List ℚ) (s : TrainState) :
    ((s.nEpisodes % cfg.targetUpdateSteps = 0 ∧ 0 < s.nEpisodes) →
      (trainStep cfg f g s).actorTarget =
        softUpdateTarget cfg.targetTau s.actorTarget ((trainStep cfg f g s).actor) ∧
      (trainStep cfg f g s).criticTarget =
        softUpdateTarget cfg.targetTau s.criticTarget ((trainStep cfg f g s).critic)) ∧
    (¬ (s.nEpisodes % cfg.targetUpdateSteps = 0 ∧ 0 < s.nEpisodes) →
      (trainStep cfg f g s).actorTarget = s.actorTarget ∧
      (trainStep cfg f g s).criticTarget = s.criticTarget) := by
  unfold trainStep
  by_cases h : s.nEpisodes % cfg.targetUpdateSteps = 0 ∧ 0 < s.nEpisodes
  · simp [h]
  · simp [h]

theorem target_update_condition_witness :
    (5 % 5 = 0 ∧ 0 < 5) ∧
    (trainStep ⟨5, 1, 100, 0⟩ (fun _ p => p) (fun _ p => p)
        ⟨[1], [1], [0], [0], 5⟩).actorTarget =
      softUpdateTarget 1 [0]
        ((trainStep ⟨5, 1, 100, 0⟩ (fun _ p => p) (fun _ p => p)
          ⟨[1], [1], [0], [0], 5⟩).actor) :=
  ⟨⟨rfl, by decide⟩,
    ((target_update_condition ⟨5, 1, 100, 0⟩ (fun _ p => p) (fun _ p => p)
      ⟨[1], [1], [0], [0], 5⟩).1 ⟨rfl, by decide⟩).1⟩

/-- Claim C10: calling `MAPPO.train` with `n_episodes <= episodes_before_train`
still performs the full gradient update on both live networks — the internal
warm-up check is a no-op, so the result of `train` does not depend on
`episodes_before_train` at all — and updates are skipped below the threshold
only by the outer training loop's guard in `run_mappo.train`. -/
theorem warmup_noop_full_update (cfg : TrainConfig)
    (f g : ℕ → List ℚ → List ℚ) (s : TrainState) (e : ℕ) :
    trainStep { cfg with episodesBeforeTrain := e } f g s = trainStep cfg f g s ∧
    (s.nEpisodes ≤ cfg.episodesBeforeTrain →
      (trainStep cfg f g s).actor = foldAgents f cfg.nAgents s.actor ∧
      (trainStep cfg f g s).critic = foldAgents g cfg.nAgents s.critic) ∧
    (s.nEpisodes < cfg.episodesBeforeTrain → outerLoopBody cfg f g s = s) := by
  have hlive : trainLive f g cfg.nAgents s.actor s.critic =
      (foldAgents f cfg.nAgents s.actor, foldAgents g cfg.nAgents s.critic) :=
    trainLive_eq f g (List.range cfg.nAgents) s.actor s.critic
  refine ⟨rfl, ?_, ?_⟩
  · intro _
    unfold trainStep
    by_cases h : s.nEpisodes % cfg.targetUpdateSteps = 0 ∧ 0 < s.nEpisodes
    · simp [h, hlive]
    · simp [h, hlive]
  · intro h
    unfold outerLoopBody
    rw [if_neg (by omega)]

theorem warmup_noop_full_update_witness :
    (2 ≤ 3 ∧ 2 < 3) ∧
    (trainStep ⟨5, 1, 3, 1⟩ (fun _ p => p.map (fun x => x + 1)) (fun _ p => p)
        ⟨[0], [0], [0], [0], 2⟩).actor =
      foldAgents (fun _ p => p.map (fun x => x + 1)) 1 [0] ∧
    outerLoopBody ⟨5, 1, 3, 1⟩ (fun _ p => p.map (fun x => x + 1)) (fun _ p => p)
        ⟨[0], [0], [0], [0], 2⟩ =
      ⟨[0], [0], [0], [0], 2⟩ :=
  ⟨⟨by decide, by decide⟩,
    ((warmup_noop_full_update ⟨5, 1, 3, 1⟩ (fun _ p => p.map (fun x => x + 1))
      (fun _ p => p) ⟨[0], [0], [0], [0], 2⟩ 0).2.1 (by decide)).1,
    (warmup_noop_full_update ⟨5, 1, 3, 1⟩ (fun _ p => p.map (fun x => x + 1))
      (fun _ p => p) ⟨[0], [0], [0], [0], 2⟩ 0).2.2 (by decide)⟩

/-- Grouping a flat list into consecutive chunks of `n` elements, the effect
of `torch.Tensor.view(-1, n, d)` at the granularity of the innermost rows;
`fuel` bounds the recursion by the input length. -/
def chunkListAux (n : ℕ) : ℕ → List α → List (List α)
  | 0, _ => []
  | _, [] => []
  | fuel + 1, x :: xs => (x :: xs.take (n - 1)) :: chunkListAux n fuel (xs.drop (n - 1))

/-- Grouping a flat list into consecutive chunks of `n` elements. -/
def chunkList (n : ℕ) (l : List α) : List (List α) := chunkListAux n l.length l

/-- The batch reshaping of `MAPPO.train` (MAPPO.py lines 172-175):
`to_tensor_var(batch.states, ...)` stacks the sampled per-step joint states
(each a list of per-agent feature rows, of whatever width it was collected
with) into one tensor, which requires every step to carry the same number of
rows — a ragged nested list cannot be stacked — and
`.view(-1, self.n_agents, self.state_dim)` then regroups the flattened rows
using the learner's current `self.n_agents`, which requires the total row
count to be divisible by `self.n_agents`.  Feature rows are kept atomic;
when either library-side requirement fails the reshape faults, modelled as
`none`. -/
def reshapeBatch (nAgents : ℕ) (batchStates : List (List (List ℚ))) :
    Option (List (List (List ℚ))) :=
  if (batchStates.all (fun step => step.length == (batchStates.headD []).length)) &&
      (batchStates.flatten.length % nAgents == 0) then
    some (chunkList nAgents batchStates.flatten)
  else none

/-- The reshaping as claim C8 states it, for comparison with `reshapeBatch`:
grouping each sampled step by the agent count recorded with it recovers
exactly the nesting the rollout was stored with. -/
def reshapePerRecorded (batchStates : List (List (List ℚ))) :
    List (List (List ℚ)) :=
  batchStates

theorem take_len_append {α : Type} (l₁ l₂ : List α) : (l₁ ++ l₂).take l₁.length = l₁ := by
  induction l₁ with
  | nil => rfl
  | cons a l ih => simp [ih]

theorem drop_len_append {α : Type} (l₁ l₂ : List α) : (l₁ ++ l₂).drop l₁.length = l₂ := by
  induction l₁ with
  | nil => rfl
  | cons a l ih => simp [ih]

theorem chunkListAux_join {α : Type} (n : ℕ) (hn : 0 < n) :
    ∀ (l : List (List α)) (fuel : ℕ), l.flatten.length ≤ fuel →
      (∀ c ∈ l, c.length = n) → chunkListAux n fuel l.flatten = l := by
  intro l
  induction l with
  | nil =>
    intro fuel _ _
    cases fuel with
    | zero => rfl
    | succ m => rfl
  | cons c rest ih =>
    intro fuel hfuel hc
    have hcl : c.length = n := hc c (by simp)
    cases c with
    | nil => rw [← hcl] at hn; simp at hn
    | cons y ys =>
      have hys : ys.length = n - 1 := by
        have := hcl; simp at this; omega
      have hjoin : ((y :: ys) :: rest).flatten = y :: (ys ++ rest.flatten) := by simp
      cases fuel with
      | zero =>
        rw [hjoin] at hfuel
        simp at hfuel
      | succ m =>
        rw [hjoin]
        show (y :: (ys ++ rest.flatten).take (n - 1)) ::
            chunkListAux n m ((ys ++ rest.flatten).drop (n - 1)) = (y :: ys) :: rest
        rw [← hys, take_len_append, drop_len_append]
        have hm : rest.flatten.length ≤ m := by
          rw [hjoin] at hfuel
          have hlen : ys.length + rest.flatten.length + 1 ≤ m + 1 := by
            simpa [Nat.add_comm, Nat.add_left_comm] using hfuel
          omega
        rw [ih m hm (fun d hd => hc d (by simp [hd]))]

theorem flatten_length_uniform {α : Type} (w : ℕ) :
    ∀ (l : List (List α)), (∀ c ∈ l, c.length = w) →
      l.flatten.length = w * l.length := by
  intro l
  induction l with
  | nil => intro _; simp
  | cons c rest ih =>
    intro h
    have hc : c.length = w := h c (by simp)
    have hr := ih (fun d hd => h d (by simp [hd]))
    simp only [List.flatten_cons, List.length_append, List.length_cons, hc, hr,
      Nat.mul_succ]
    omega

/-- Claim C8, counterexample: a sampled step stored with two agents (two
one-dimensional feature rows `[1]` and `[2]`) reshaped with a current agent
count of `1` yields two single-agent rows instead of the recorded
two-agent grouping, so `MAPPO.train` does not reshape by the agent count
recorded with the sampled rollout. -/
theorem reshape_claim_counterexample :
    reshapeBatch 1 [[[1], [2]]] ≠ some (reshapePerRecorded [[[1], [2]]]) := by
  norm_num [reshapeBatch, reshapePerRecorded, chunkList, chunkListAux]

/-- Claim C8, amended: `MAPPO.train` reshapes the sampled batch with the
learner's single current agent count `self.n_agents` (recorded at the most
recent `interact`), not with a per-rollout recorded count; accounting for
the library failure modes (stacking rejects ragged batches, `view` requires
the row count to be divisible by `n_agents`), the reshape succeeds and
agrees with the recorded per-step grouping exactly when every sampled step
was collected with that same agent count. -/
theorem reshape_current_agent_count (n : ℕ) (hn : 0 < n)
    (batch : List (List (List ℚ))) :
    reshapeBatch n batch = some (reshapePerRecorded batch) ↔
      ∀ step ∈ batch, step.length = n := by
  unfold reshapeBatch reshapePerRecorded
  constructor
  · intro h
    cases hcond : (batch.all (fun step => step.length == (batch.headD []).length)) &&
        (batch.flatten.length % n == 0) with
    | false =>
      rw [hcond] at h
      simp at h
    | true =>
      rw [hcond] at h
      simp only [if_true] at h
      have hchunk : chunkList n batch.flatten = batch := by simpa using h
      have hparts : (batch.all (fun step => step.length == (batch.headD []).length))
          = true ∧ (batch.flatten.length % n == 0) = true := by
        simpa [Bool.and_eq_true] using hcond
      have huni : ∀ step ∈ batch, step.length = (batch.headD []).length := by
        intro st hst
        have := List.all_eq_true.mp hparts.1 st hst
        simpa using this
      have hdvd : batch.flatten.length % n = 0 := by simpa using hparts.2
      cases batch with
      | nil => intro st hst; simp at hst
      | cons s rest =>
        have huniv : ∀ d ∈ (s :: rest), d.length = s.length := by
          intro d hd
          simpa using huni d hd
        have skey : s.length = n := by
          by_cases hw0 : s.length = 0
          · exfalso
            have hrf : rest.flatten.length = s.length * rest.length :=
              flatten_length_uniform s.length rest
                (fun d hd => huniv d (by simp [hd]))
            have h0 : (s :: rest).flatten.length = 0 := by
              simp [hrf, hw0]
            have hfl : (s :: rest).flatten = [] := List.length_eq_zero.mp h0
            rw [hfl] at hchunk
            simp [chunkList, chunkListAux] at hchunk
          · obtain ⟨y, ys, rfl⟩ : ∃ y ys, s = y :: ys := by
              cases s with
              | nil => exact absurd rfl hw0
              | cons y ys => exact ⟨y, ys, rfl⟩
            have hflat : ((y :: ys) :: rest).flatten = y :: (ys ++ rest.flatten) := by
              simp
            rw [hflat] at hchunk
            unfold chunkList at hchunk
            simp only [List.length_cons, chunkListAux] at hchunk
            simp only [List.cons.injEq] at hchunk
            obtain ⟨⟨-, htake⟩, -⟩ := hchunk
            have hlen := congrArg List.length htake
            simp only [List.length_take, List.length_append] at hlen
            by_cases hcase : n - 1 ≤ ys.length + rest.flatten.length
            · rw [Nat.min_eq_left hcase] at hlen
              simp only [List.length_cons]
              omega
            · exfalso
              rw [Nat.min_eq_right (Nat.le_of_lt (Nat.lt_of_not_le hcase))] at hlen
              have hrf0 : rest.flatten.length = 0 := by omega
              have htot : ((y :: ys) :: rest).flatten.length = ys.length + 1 := by
                simp [hrf0]
              rw [htot] at hdvd
              have hlt : ys.length + 1 < n := by omega
              rw [Nat.mod_eq_of_lt hlt] at hdvd
              omega
        intro st hst
        rw [huniv st hst]
        exact skey
  · intro hall
    have hw : batch.all (fun step => step.length == (batch.headD []).length) = true := by
      rw [List.all_eq_true]
      intro st hst
      cases batch with
      | nil => simp at hst
      | cons s rest =>
        have h1 := hall st hst
        have h2 : s.length = n := hall s (by simp)
        simp [h1, h2]
    have hdvd : (batch.flatten.length % n == 0) = true := by
      rw [flatten_length_uniform n batch hall]
      simp [Nat.mul_mod_right]
    have hchunk : chunkList n batch.flatten = batch :=
      chunkListAux_join n hn batch batch.flatten.length (le_refl _) hall
    rw [hw, hdvd]
    simp [hchunk]

theorem reshape_current_agent_count_witness :
    (0 < 2 ∧ ∀ step ∈ ([[[1], [2]]] : List (List (List ℚ))), step.length = 2) ∧
    reshapeBatch 2 [[[1], [2]]] = some (reshapePerRecorded [[[1], [2]]]) :=
  ⟨⟨by decide, by decide⟩,
    (reshape_current_agent_count 2 (by decide) [[[1], [2]]]).mpr (by decide)⟩

end MAPPO

namespace LaneChnageMARL

/-- A controlled vehicle as `LaneChnageMARL.step` reads it: a planar
position whose coordinates may be NaN (modelled as `none`) and a speed.
The lane-local coordinates used for `hdv_info` come from road geometry
outside this file and are abstracted as a function parameter below. -/
structure MVehicle where
  posX : Option ℚ
  posY : Option ℚ
  speed : ℚ

/-- `np.isnan(v.position).any()` for a vehicle. -/
def vehiclePosNaN (v : MVehicle) : Bool := v.posX.isNone || v.posY.isNone

/-- Whether any entry of any produced observation row is NaN. -/
def obsHasNaN (obs : List (List (Option ℚ))) : Bool :=
  obs.any (fun row => row.any (fun x => x.isNone))

def nanMsg : String := "Vehicle position is NaN"

/-- The per-vehicle loop of `LaneChnageMARL.step` (lanechange_env.py lines
154-159): walk the controlled vehicles in order, collecting `agent_info`
(`[x, y, speed]`) and `hdv_info` (lane-local coordinates and speed) entries,
and raise `ValueError("Vehicle position is NaN")` at the first vehicle whose
position contains a NaN.  In the source the two appends precede the check
within an iteration; since the raise discards the partial lists, the
returned value is the same. -/
def buildInfos (localCoords : MVehicle → Option ℚ × Option ℚ) :
    List MVehicle → Except String (List (List (Option ℚ)) × List (List (Option ℚ)))
  | [] => Except.ok ([], [])
  | v :: vs =>
    if vehiclePosNaN v then Except.error nanMsg
    else
      match buildInfos localCoords vs with
      | Except.error e => Except.error e
      | Except.ok (ai, li) =>
        Except.ok ([v.posX, v.posY, some v.speed] :: ai,
          [(localCoords v).1, (localCoords v).2, some v.speed] :: li)

/-- `LaneChnageMARL.step` (lanechange_env.py lines 146-177), restricted to
the data the NaN invariant concerns: the observation, reward and done flag
produced by the superclass step are passed through untouched (observations
are never inspected for NaN), and the per-vehicle info loop may raise. -/
def lcStep (localCoords : MVehicle → Option ℚ × Option ℚ)
    (obs : List (List (Option ℚ))) (reward : ℚ) (done : Bool)
    (vehicles : List MVehicle) :
    Except String
      (List (List (Option ℚ)) × ℚ × Bool ×
        List (List (Option ℚ)) × List (List (Option ℚ))) :=
  match buildInfos localCoords vehicles with
  | Except.error e => Except.error e
  | Except.ok (ai, li) => Except.ok (obs, reward, done, ai, li)

/-- Whether an `Except` result returned normally. -/
def isOkB {ε α : Type} : Except ε α → Bool
  | Except.ok _ => true
  | Except.error _ => false

/-- Claim C9, counterexample: an observation containing a NaN entry while
every controlled vehicle position is NaN-free makes `LaneChnageMARL.step`
return normally, recording the NaN-containing transition instead of raising:
only vehicle positions are checked. -/
theorem nan_check_counterexample :
    obsHasNaN [[none]] = true ∧
    lcStep (fun v => (v.posX, v.posY)) [[none]] 0 false [⟨some 1, some 2, 3⟩] =
      Except.ok ([[none]], 0, false, [[some 1, some 2, some 3]],
        [[some 1, some 2, some 3]]) :=
  ⟨rfl, rfl⟩

/-- Claim C9, amended: `LaneChnageMARL.step` raises a fatal error instead of
returning a result exactly when some controlled vehicle's position contains
a NaN; NaN appearing only in the produced observations is not checked, and
the step result does not depend on the observations at all for this. -/
theorem nan_abort_iff_position_nan (localCoords : MVehicle → Option ℚ × Option ℚ)
    (obs : List (List (Option ℚ))) (reward : ℚ) (done : Bool)
    (vehicles : List MVehicle) :
    isOkB (lcStep localCoords obs reward done vehicles) =
      !(vehicles.any vehiclePosNaN) := by
  have hbuild : ∀ vs : List MVehicle,
      isOkB (buildInfos localCoords vs) = !(vs.any vehiclePosNaN) := by
    intro vs
    induction vs with
    | nil => rfl
    | cons v vs ih =>
      by_cases h : vehiclePosNaN v = true
      · simp [buildInfos, h, isOkB]
      · simp only [Bool.not_eq_true] at h
        simp only [buildInfos, h, Bool.false_eq_true, if_false, List.any_cons,
          Bool.false_or]
        cases hb : buildInfos localCoords vs with
        | error e => rw [hb] at ih; simpa [isOkB] using ih
        | ok pair =>
          rw [hb] at ih
          simp [isOkB] at ih ⊢
          exact ih
  unfold lcStep
  cases hb : buildInfos localCoords vehicles with
  | error e =>
    have := hbuild vehicles
    rw [hb] at this
    simpa [isOkB] using this
  | ok pair =>
    have := hbuild vehicles
    rw [hb] at this
    simpa [isOkB] using this

end LaneChnageMARL
